import Mathlib

/-!
Verification development for the code-xplain repository analysis backend.

The Python source is shallowly embedded: dictionaries become association
lists (`List (String × α)`, insertion ordered, first-match lookup),
filesystem and network effects become explicit parameters or event traces,
and raising code returns `Except`.  Each definition mirrors the control flow
of the corresponding Python function in `backend/src`.
-/

namespace CodeXplain

/-! Python string primitives used by the source. -/

/-- Python `str.lower()`. -/
def strLower (s : String) : String := String.mk (s.data.map Char.toLower)

/-- Whether `pre` is a leading segment of `l` (character lists). -/
def leadsWith : List Char → List Char → Bool
  | [], _ => true
  | _ :: _, [] => false
  | a :: as, b :: bs => a == b && leadsWith as bs

/-- Whether `needle` occurs contiguously inside `hay` (character lists). -/
def containsChars (needle : List Char) : List Char → Bool
  | [] => needle.isEmpty
  | c :: rest => leadsWith needle (c :: rest) || containsChars needle rest

/-- Python substring membership `needle in hay`. -/
def pyIn (needle hay : String) : Bool := containsChars needle.data hay.data

/-- Python `str.endswith(suffix)`. -/
def endsWithStr (s suffix : String) : Bool :=
  leadsWith suffix.data.reverse s.data.reverse

/-- Python `os.path.dirname` on a forward-slash relative path. -/
def dirName (p : String) : String :=
  match p.data.reverse.dropWhile (fun c => c ≠ '/') with
  | [] => ""
  | _ :: rest => String.mk rest.reverse

/-- Python `os.path.join` for a (possibly empty) directory and a file name,
followed by `os.path.relpath` normalization back to a relative path. -/
def joinPath (d f : String) : String := if d = "" then f else d ++ "/" ++ f

/-! Association-list model of Python dicts (insertion ordered). -/

/-- Lookup of the first entry with the given key (Python `d[k]` / `d.get(k)`). -/
def dget {α : Type} : List (String × α) → String → Option α
  | [], _ => none
  | (a, v) :: t, k => if a = k then some v else dget t k

/-- The keys of the dict, in insertion order. -/
def keys {α : Type} (d : List (String × α)) : List String := d.map Prod.fst

/-- Python `k in d`. -/
def hasKey {α : Type} (d : List (String × α)) (k : String) : Bool :=
  (dget d k).isSome

/-- Python `d[k] = v` for a key already present: the value of the entry
keyed `k` is replaced, every other entry is unchanged. -/
def setKey {α : Type} (d : List (String × α)) (k : String) (v : α) :
    List (String × α) :=
  d.map (fun p => (p.1, if p.1 = k then v else p.2))

/-- Deduplication keeping first occurrences; determinization of the Python
`set` accumulated by `parse_python_imports` (claims below depend only on
membership, or on singleton import lists where order is immaterial). -/
def dedupAux : List String → List String → List String
  | [], _ => []
  | a :: t, seen => if a ∈ seen then dedupAux t seen else a :: dedupAux t (a :: seen)

/-- First-occurrence deduplication of a list of strings. -/
def dedupFirst (l : List String) : List String := dedupAux l []

/-- Number of occurrences of `k` in `l`. -/
def countEq (l : List String) (k : String) : Nat :=
  (l.filter (fun x => x = k)).length

/-! Import Graph Builder — embedding of `backend/src/code_parser.py`.
The filesystem is abstracted by the list of relative paths of files present
in the working copy; `os.path.isfile` on a candidate `<name>.py` path holds
exactly when that relative path is among the scanned files. -/

/-- One resolution attempt of `parse_python_imports` (code_parser.py:34-42):
same-directory `<import>.py` first, then repository-root `<import>.py`. -/
def resolveOne (files : List String) (relDir imp : String) : Option String :=
  let possible := joinPath relDir (imp ++ ".py")
  if possible ∈ files then some possible
  else
    let top := imp ++ ".py"
    if top ∈ files then some top else none

/-- Embedding of `parse_python_imports` (code_parser.py:14-43): the raw
top-level import names of the file at `relPath` (the result of the `ast`
walk; a file whose parse failed contributes `[]`) are resolved in turn,
unresolved names are dropped. -/
def parse_python_imports (files : List String) (relPath : String)
    (rawNames : List String) : List String :=
  let relDir := dirName relPath
  (dedupFirst rawNames).foldl
    (fun acc imp =>
      match resolveOne files relDir imp with
      | some p => acc ++ [p]
      | none => acc) []

/-- Embedding of `walk_repo_files` (code_parser.py:45-52): all files of the
working copy whose relative path ends in `.py`, in walk order. -/
def walk_repo_files (allFiles : List String) : List String :=
  allFiles.filter (fun f => endsWithStr f ".py")

/-- Record held per file in the `file_structure` dict of `analyze_repo`. -/
structure FileRecord where
  imports : List String
  used_by : List String
deriving DecidableEq, Repr

/-- One step of `usage_lookup[imp].append(f)` guarded by
`if imp in usage_lookup` (code_parser.py:73-75): the entry keyed `key`, when
present, gets `f` appended; a dict without the key is unchanged. -/
def appendUsage (u : List (String × List String)) (key f : String) :
    List (String × List String) :=
  u.map (fun p => (p.1, if p.1 = key then p.2 ++ [f] else p.2))

/-- The inner loop of `analyze_repo` over the resolved imports of one file. -/
def recordFileImports (u : List (String × List String)) (f : String)
    (imported : List String) : List (String × List String) :=
  imported.foldl (fun acc imp => appendUsage acc imp f) u

/-- The usage-lookup construction of `analyze_repo` (code_parser.py:66-75):
initialised with an empty list per scanned file, then each file appends
itself to the entry of every import it resolved. -/
def buildUsageLookup (pyFiles : List String) (importedOf : String → List String) :
    List (String × List String) :=
  pyFiles.foldl (fun u f => recordFileImports u f (importedOf f))
    (pyFiles.map (fun f => (f, ([] : List String))))

/-- Pure core of `analyze_repo` (code_parser.py:61-95): given the scanned
`.py` files and, per file, its raw import names, produce the
`file_structure` dict and the `usage_lookup` dict. -/
def analyze_repo (pyFiles : List String) (rawOf : String → List String) :
    List (String × FileRecord) × List (String × List String) :=
  let importedOf := fun f => parse_python_imports pyFiles f (rawOf f)
  let usage := buildUsageLookup pyFiles importedOf
  let fileStructure := pyFiles.map
    (fun f => (f, { imports := importedOf f
                    used_by := (dget usage f).getD [] : FileRecord }))
  (fileStructure, usage)

/-- Result of a successful `analyze_repo` call as consumed by
`CodeAgent.load_repo_data`: the `file_structure` dict, the per-file contents
(parsed back out of the CSV string, whose rows are exactly the scanned
files), and the `usage_lookup` dict. -/
structure AnalyzeResult where
  file_structure : List (String × FileRecord)
  code_data : List (String × String)
  usage_lookup : List (String × List String)
deriving DecidableEq, Repr

/-- Assembles the `AnalyzeResult` of a successful scan from the scanned
files, their raw import names and their contents. -/
def mkAnalyzeResult (pyFiles : List String) (rawOf : String → List String)
    (contentOf : String → String) : AnalyzeResult :=
  let r := analyze_repo pyFiles rawOf
  { file_structure := r.1
    code_data := pyFiles.map (fun f => (f, contentOf f))
    usage_lookup := r.2 }

/-! Repository Snapshot Store — embedding of the mutable fields of
`CodeAgent` (code_agent.py:30-38) and its tool methods. -/

/-- The snapshot-bearing state of a `CodeAgent` instance. -/
structure AgentState where
  file_structure : List (String × FileRecord)
  usage_lookup : List (String × List String)
  code_data : List (String × String)
  current_repo_url : Option String
deriving DecidableEq, Repr

/-- State right after `CodeAgent.__init__` (code_agent.py:35-38). -/
def initialState : AgentState :=
  { file_structure := [], usage_lookup := [], code_data := []
    current_repo_url := none }

/-- Embedding of `CodeAgent.load_repo_data` (code_agent.py:315-331).  The
outcome of the `analyze_repo` call (which clones and scans, and raises on
clone or scan failure) is passed in as `analysis`.  The source assigns
`self.current_repo_url = repo_url` before invoking `analyze_repo`; on
failure the raised exception propagates with that assignment already done,
while the tuple assignment of the analysis results has not happened.  The
metadata fetch at the end is wrapped in try/except and never changes these
fields. -/
def load_repo_data (s : AgentState) (repoUrl : String)
    (analysis : Except String AnalyzeResult) : AgentState × Except String Unit :=
  let s1 := { s with current_repo_url := some repoUrl }
  match analysis with
  | .error e => (s1, .error e)
  | .ok r =>
      ({ s1 with file_structure := r.file_structure
                 usage_lookup := r.usage_lookup
                 code_data := r.code_data }, .ok ())

/-- Summary returned by `CodeAgent.read_file_structure` (code_agent.py:232-241)
restricted to the counts (the `file_structure` field itself is the dict in
the state). -/
structure FileStructureSummary where
  total_files : Nat
  python : Nat
  other : Nat
deriving DecidableEq, Repr

/-- Embedding of `CodeAgent.read_file_structure` (code_agent.py:232-241). -/
def read_file_structure (s : AgentState) : FileStructureSummary :=
  { total_files := s.file_structure.length
    python := ((keys s.file_structure).filter (fun f => endsWithStr f ".py")).length
    other := ((keys s.file_structure).filter (fun f => !(endsWithStr f ".py"))).length }

/-- A tool method's return value: either the `{"error": ...}` dict the
source builds for an absent path, or the payload dict. -/
inductive ToolReply (α : Type) where
  | errorDict (msg : String)
  | payload (a : α)
deriving DecidableEq, Repr

/-- Payload dict of `CodeAgent.fetch_code`. -/
structure FetchPayload where
  file_path : String
  code : String
  imports : List String
  used_by : List String
deriving DecidableEq, Repr

/-- Payload dict of `CodeAgent.find_code_usage`. -/
structure UsagePayload where
  file_path : String
  imports : List String
  used_by : List String
  total_dependencies : Nat
  total_dependents : Nat
deriving DecidableEq, Repr

/-- Embedding of `CodeAgent.fetch_code` (code_agent.py:243-253).  The outer
`Except` records a raised Python exception: the unguarded subscript
`self.code_data[file_path]` would raise `KeyError`, but it is only reached
behind the membership guard. -/
def fetch_code (s : AgentState) (p : String) :
    Except String (ToolReply FetchPayload) :=
  if hasKey s.code_data p = false then
    .ok (.errorDict ("File " ++ p ++ " not found"))
  else
    match dget s.code_data p with
    | none => .error "KeyError"
    | some code =>
        .ok (.payload
          { file_path := p
            code := code
            imports := ((dget s.file_structure p).getD ⟨[], []⟩).imports
            used_by := ((dget s.file_structure p).getD ⟨[], []⟩).used_by })

/-- Embedding of `CodeAgent.find_code_usage` (code_agent.py:255-266). -/
def find_code_usage (s : AgentState) (p : String) :
    Except String (ToolReply UsagePayload) :=
  if hasKey s.usage_lookup p = false then
    .ok (.errorDict ("File " ++ p ++ " not found in usage lookup"))
  else
    match dget s.usage_lookup p with
    | none => .error "KeyError"
    | some usedBy =>
        .ok (.payload
          { file_path := p
            imports := ((dget s.file_structure p).getD ⟨[], []⟩).imports
            used_by := usedBy
            total_dependencies := ((dget s.file_structure p).getD ⟨[], []⟩).imports.length
            total_dependents := usedBy.length })

/-- Whether an embedded call returned normally rather than raising. -/
def returnsOk {α : Type} : Except String α → Bool
  | .ok _ => true
  | .error _ => false

/-- The three dicts of a loaded (or initial) snapshot share their key set:
`load_repo_data` fills all three from one `analyze_repo` result and
`__init__` leaves all three empty. -/
def wellFormed (s : AgentState) : Prop :=
  keys s.code_data = keys s.file_structure ∧
  keys s.usage_lookup = keys s.file_structure

/-! Intent Classifier fallback — embedding of
`CodeAgent._fallback_intent_analysis` (code_agent.py:141-199). -/

/-- The decision dict produced by the fallback classifier.  The float
confidence of the source is carried as the exact rational it denotes. -/
structure IntentDecision where
  intent_type : String
  requires_tools : Bool
  confidence : Rat
  reasoning : String
  suggested_tools : List String
  can_answer_from_context : Bool
  response_strategy : String
deriving DecidableEq, Repr

/-- Embedding of `CodeAgent._fallback_intent_analysis` (code_agent.py:141-199).
Each keyword test is Python substring membership `word in query.lower()`,
checked in source order: greeting words, issue words, structure words, then
the repository-loaded default. -/
def fallback_intent_analysis (query : String) (repoLoaded : Bool) :
    IntentDecision :=
  let ql := strLower query
  if ["hello", "hi", "hey", "greetings"].any (fun w => pyIn w ql) then
    { intent_type := "greeting", requires_tools := false, confidence := 9/10
      reasoning := "Query contains greeting words", suggested_tools := []
      can_answer_from_context := true, response_strategy := "friendly_greeting" }
  else if ["issue", "bug", "pr", "pull request", "problem"].any (fun w => pyIn w ql) then
    { intent_type := "issue_search", requires_tools := true, confidence := 8/10
      reasoning := "Query mentions issues or bugs"
      suggested_tools := ["search_related_issues"]
      can_answer_from_context := false, response_strategy := "search_and_analyze" }
  else if ["structure", "architecture", "overview", "files"].any (fun w => pyIn w ql) then
    { intent_type := "architecture_overview", requires_tools := true, confidence := 8/10
      reasoning := "Query asks about code structure"
      suggested_tools := ["read_file_structure"]
      can_answer_from_context := false, response_strategy := "structural_analysis" }
  else if repoLoaded then
    { intent_type := "code_analysis", requires_tools := true, confidence := 6/10
      reasoning := "General code-related query with repository loaded"
      suggested_tools := ["read_file_structure", "fetch_code"]
      can_answer_from_context := false, response_strategy := "comprehensive_analysis" }
  else
    { intent_type := "general_conversation", requires_tools := false, confidence := 7/10
      reasoning := "No specific code analysis intent detected", suggested_tools := []
      can_answer_from_context := true, response_strategy := "conversational" }

/-! Orchestration Core — embedding of `CodeAgent.run` after the intent step
(code_agent.py:341-359) and of the call structure of
`_execute_tool_based_analysis` (code_agent.py:361-435).  Completion-capability
calls are recorded as tags; the synthesis call is the final completion
request of the tool path. -/

/-- A call to the text-completion capability made while answering a turn. -/
inductive LlmCall where
  | conversational
  | fileSelection
  | synthesis
deriving DecidableEq, Repr

/-- The fixed guidance message returned when tools are required but no
repository is loaded (code_agent.py:356). -/
def guidance_message : String :=
  "I'd be happy to help with code analysis, but no repository is currently loaded. Please load a repository first using the repository URL input, then I can analyze the code, search for issues, or examine the file structure."

/-- Call structure of `_execute_tool_based_analysis` (code_agent.py:361-435):
an optional file-selection completion call when file-level tools are
suggested or the intent is `code_analysis`, then always the final synthesis
completion call, whose text is the turn's answer. -/
def execute_tool_based (intentType : String) (suggestedTools : List String)
    (llm : LlmCall → String) : List LlmCall × String :=
  let fileAnalysis :=
    suggestedTools.contains "fetch_code" || suggestedTools.contains "find_code_usage"
      || intentType == "code_analysis"
  ((if fileAnalysis then [LlmCall.fileSelection] else []) ++ [LlmCall.synthesis],
    llm LlmCall.synthesis)

/-- Embedding of `CodeAgent.run` after intent identification
(code_agent.py:349-359).  The dict reads
`intent_data.get('requires_tools', True)` (line 350) and
`intent_data.get('requires_tools')` (line 355) are modelled on an optional
field: a missing key defaults to `True` at the first read and to a falsy
value at the second.  The result pairs the completion calls made in this
phase with the returned response text. -/
def run_after_intent (repoLoaded : Bool) (requiresTools : Option Bool)
    (intentType : String) (suggestedTools : List String)
    (llm : LlmCall → String) : List LlmCall × String :=
  if !(requiresTools.getD true) then
    ([LlmCall.conversational], llm LlmCall.conversational)
  else if requiresTools.getD false && !repoLoaded then
    ([], guidance_message)
  else
    execute_tool_based intentType suggestedTools llm

/-! Issue/PR Gateway Adapter — embedding of `GitHubAPI.search_issues`
(git_utils.py:70-108). -/

/-- An issue object as far as the merge step inspects it: its number plus an
opaque remainder distinguishing which search returned it. -/
structure Issue where
  number : Nat
  title : String
deriving DecidableEq, Repr

/-- The body of the inner loop of `search_issues` (git_utils.py:98-101):
the accumulator pairs `all_results` with `seen_numbers`; an item whose
number was already seen is skipped, otherwise it is appended and its number
recorded. -/
def mergeStep (acc : List Issue × List Nat) (item : Issue) :
    List Issue × List Nat :=
  if item.number ∈ acc.2 then acc else (acc.1 ++ [item], acc.2 ++ [item.number])

/-- The merge-and-deduplicate loop of `search_issues` (git_utils.py:84-108):
`queryResults` holds, per scoped search query, the items it returned (a
query that raised contributes an empty list via the `except ... continue`). -/
def search_issues_merge (queryResults : List (List Issue)) : List Issue :=
  (queryResults.foldl (fun acc items => items.foldl mergeStep acc) ([], [])).1

/-- First-seen deduplication by issue number, as the spec words it: keep an
item when its number has not been seen, in input order. -/
def dedupSeen : List Issue → List Nat → List Issue × List Nat
  | [], seen => ([], seen)
  | i :: t, seen =>
      if i.number ∈ seen then dedupSeen t seen
      else
        let r := dedupSeen t (seen ++ [i.number])
        (i :: r.1, r.2)

/-! Ephemeral working directory — effect model of `analyze_repo`'s
clone/scan body (code_parser.py:61-97): `tempfile.mkdtemp()` outside the
`try`, the clone and scan inside it, `shutil.rmtree` in the `finally`. -/

/-- A filesystem event the working-directory discipline cares about. -/
inductive FsEvent where
  | mkdtemp (dir : String)
  | rmtree (dir : String)
deriving DecidableEq, Repr

/-- Runs `analyze_repo` with its working-directory lifecycle: the result of
`Repo.clone_from` (the files of the materialized working copy, or a raised
clone error) and an unexpected enumeration/read failure of the scan are
passed in as outcomes; the event trace records directory creation and the
`finally` deletion. -/
def analyze_repo_run (tempDir : String)
    (cloneResult : Except String (List String))
    (scanResult : Except String Unit)
    (rawOf : String → List String) (contentOf : String → String) :
    Except String AnalyzeResult × List FsEvent :=
  let body : Except String AnalyzeResult :=
    match cloneResult with
    | .error e => .error e
    | .ok allFiles =>
        match scanResult with
        | .error e => .error e
        | .ok _ => .ok (mkAnalyzeResult (walk_repo_files allFiles) rawOf contentOf)
  (body, [FsEvent.mkdtemp tempDir, FsEvent.rmtree tempDir])

/-! Chat endpoint — embedding of `chat` in `backend/src/api.py` (lines
80-115).  The session table is a dict from session id to message list; the
agent call is passed in as a function of the history (its raised exception
becomes the `.error` outcome, surfaced as the HTTP 500). -/

/-- A chat message. -/
structure Msg where
  role : String
  content : String
deriving DecidableEq, Repr

/-- The process-wide session table. -/
abbrev Sessions := List (String × List Msg)

/-- First half of the `chat` handler (api.py:86-90): create the session if
it is unknown, then append the incoming user message to its history. -/
def sessionsAfterUserAppend (sessions : Sessions) (sid : String) (m : Msg) :
    Sessions :=
  let sessions1 := if hasKey sessions sid then sessions else sessions ++ [(sid, [])]
  setKey sessions1 sid ((dget sessions1 sid).getD [] ++ [m])

/-- Embedding of the `chat` route handler (api.py:80-115): create the
session if absent, append the user message, run the agent on the full
history, and on success append the assistant reply; a raising agent leaves
the table as it was after the user-message append. -/
def chat_endpoint (sessions : Sessions) (sid : String) (m : Msg)
    (agentOf : List Msg → Except String String) :
    Sessions × Except String (String × List Msg) :=
  let sessions2 := sessionsAfterUserAppend sessions sid m
  let history := (dget sessions2 sid).getD []
  match agentOf history with
  | .error e => (sessions2, .error e)
  | .ok resp =>
      let sessions3 :=
        setKey sessions2 sid ((dget sessions2 sid).getD [] ++ [⟨"assistant", resp⟩])
      (sessions3, .ok (resp, (dget sessions3 sid).getD []))

/-! Concrete instances used by the evaluation theorems and witnesses. -/

/-- The synthetic three-file repository of the end-to-end property. -/
def demoFiles : List String := ["a.py", "b.py", "c.py"]

/-- Raw import names of the synthetic repository: `a` imports `b`, `b`
imports `c`, `c` imports nothing. -/
def demoRawOf : String → List String :=
  fun f => if f = "a.py" then ["b"] else if f = "b.py" then ["c"] else []

/-- An agent state with a previously loaded one-file repository. -/
def loadedState : AgentState :=
  { file_structure := [("main.py", ⟨[], []⟩)]
    usage_lookup := [("main.py", [])]
    code_data := [("main.py", "print(1)")]
    current_repo_url := some "https://github.com/old/repo" }

/-! Helper lemmas about the dict model. -/

theorem keys_cons {α : Type} (a : String) (v : α) (t : List (String × α)) :
    keys ((a, v) :: t) = a :: keys t := rfl

theorem dget_eq_none {α : Type} (d : List (String × α)) (k : String) :
    dget d k = none ↔ k ∉ keys d := by
  induction d with
  | nil => simp [dget, keys]
  | cons p t ih =>
      obtain ⟨a, v⟩ := p
      rw [keys_cons]
      by_cases h : a = k
      · subst h; simp [dget]
      · have h' : ¬k = a := fun hh => h hh.symm
        simp [dget, h, h', ih]

theorem dget_isSome_iff {α : Type} (d : List (String × α)) (k : String) :
    (dget d k).isSome = true ↔ k ∈ keys d := by
  rw [Option.isSome_iff_ne_none, ne_eq, dget_eq_none, not_not]

theorem dget_map_pair {α : Type} (l : List String) (g : String → α) (k : String) :
    dget (l.map (fun f => (f, g f))) k = if k ∈ l then some (g k) else none := by
  induction l with
  | nil => simp [dget]
  | cons a t ih =>
      by_cases h : a = k
      · subst h; simp [dget]
      · simp [dget, h, ih, Ne.symm h]

theorem keys_map_pair {α : Type} (l : List String) (g : String → α) :
    keys (l.map (fun f => (f, g f))) = l := by
  simp only [keys, List.map_map]
  exact List.map_id l

theorem dget_append {α : Type} (d₁ d₂ : List (String × α)) (k : String) :
    dget (d₁ ++ d₂) k = ((dget d₁ k).or (dget d₂ k)) := by
  induction d₁ with
  | nil => simp [dget]
  | cons p t ih =>
      by_cases h : p.1 = k <;> simp [dget, h, ih]

theorem dget_map_entry {α β : Type} (g : String → α → β) (d : List (String × α))
    (k : String) :
    dget (d.map (fun p => (p.1, g p.1 p.2))) k = (dget d k).map (g k) := by
  induction d with
  | nil => simp [dget]
  | cons p t ih =>
      obtain ⟨a, v⟩ := p
      by_cases h : a = k
      · subst h; simp [dget, ih]
      · simp [dget, h, ih]

theorem keys_map_entry {α β : Type} (g : String → α → β) (d : List (String × α)) :
    keys (d.map (fun p => (p.1, g p.1 p.2))) = keys d := by
  induction d with
  | nil => rfl
  | cons p t ih => simp only [keys, List.map_cons] at ih ⊢; rw [ih]

theorem dget_setKey_self {α : Type} (d : List (String × α)) (k : String) (v : α) :
    dget (setKey d k v) k = (dget d k).map (fun _ => v) := by
  have h := dget_map_entry (fun a w => if a = k then v else w) d k
  rw [setKey, h]
  cases dget d k <;> simp

/-! Helper lemmas about the usage-lookup construction. -/

theorem dget_appendUsage (u : List (String × List String)) (key f k : String) :
    dget (appendUsage u key f) k =
      (dget u k).map (fun l => if k = key then l ++ [f] else l) :=
  dget_map_entry (fun a l => if a = key then l ++ [f] else l) u k

theorem keys_appendUsage (u : List (String × List String)) (key f : String) :
    keys (appendUsage u key f) = keys u :=
  keys_map_entry (fun a l => if a = key then l ++ [f] else l) u

theorem countEq_cons (a : String) (l : List String) (k : String) :
    countEq (a :: l) k = if a = k then countEq l k + 1 else countEq l k := by
  by_cases h : a = k <;> simp [countEq, List.filter_cons, h]

theorem dget_recordFileImports (imported : List String)
    (u : List (String × List String)) (f k : String) :
    dget (recordFileImports u f imported) k =
      (dget u k).map (fun l => l ++ List.replicate (countEq imported k) f) := by
  induction imported generalizing u with
  | nil =>
      cases h : dget u k <;> simp [recordFileImports, countEq, h]
  | cons imp rest ih =>
      have step : recordFileImports u f (imp :: rest) =
          recordFileImports (appendUsage u imp f) f rest := rfl
      rw [step, ih, dget_appendUsage]
      by_cases h : k = imp
      · cases hu : dget u k <;>
          simp [hu, h, countEq_cons, List.replicate_succ, List.append_assoc]
      · have h' : ¬imp = k := fun hh => h hh.symm
        cases hu : dget u k <;> simp [hu, h, h', countEq_cons]

theorem keys_recordFileImports (imported : List String)
    (u : List (String × List String)) (f : String) :
    keys (recordFileImports u f imported) = keys u := by
  induction imported generalizing u with
  | nil => rfl
  | cons imp rest ih =>
      have step : recordFileImports u f (imp :: rest) =
          recordFileImports (appendUsage u imp f) f rest := rfl
      rw [step, ih, keys_appendUsage]

theorem dget_usage_fold (files : List String) (impOf : String → List String)
    (u : List (String × List String)) (k : String) :
    dget (files.foldl (fun acc f => recordFileImports acc f (impOf f)) u) k =
      (dget u k).map (fun l =>
        l ++ (files.map (fun A => List.replicate (countEq (impOf A) k) A)).flatten) := by
  induction files generalizing u with
  | nil => cases h : dget u k <;> simp [h]
  | cons A rest ih =>
      rw [List.foldl_cons, ih, dget_recordFileImports]
      cases h : dget u k <;> simp [h]

theorem keys_usage_fold (files : List String) (impOf : String → List String)
    (u : List (String × List String)) :
    keys (files.foldl (fun acc f => recordFileImports acc f (impOf f)) u) = keys u := by
  induction files generalizing u with
  | nil => rfl
  | cons A rest ih => rw [List.foldl_cons, ih, keys_recordFileImports]

theorem keys_buildUsageLookup (pyFiles : List String) (impOf : String → List String) :
    keys (buildUsageLookup pyFiles impOf) = pyFiles := by
  rw [buildUsageLookup, keys_usage_fold, keys_map_pair]

theorem dget_buildUsageLookup (pyFiles : List String) (impOf : String → List String)
    (k : String) (hk : k ∈ pyFiles) :
    dget (buildUsageLookup pyFiles impOf) k =
      some ((pyFiles.map (fun A => List.replicate (countEq (impOf A) k) A)).flatten) := by
  rw [buildUsageLookup, dget_usage_fold, dget_map_pair]
  simp [hk]

/-! Helper lemmas about deduplication and import resolution. -/

theorem mem_dedupAux (l : List String) (x : String) :
    ∀ seen, x ∈ dedupAux l seen ↔ x ∈ l ∧ x ∉ seen := by
  induction l with
  | nil => intro seen; simp [dedupAux]
  | cons a t ih =>
      intro seen
      simp only [dedupAux]
      split_ifs with h
      · rw [ih]
        simp only [List.mem_cons]
        constructor
        · rintro ⟨hx, hs⟩
          exact ⟨Or.inr hx, hs⟩
        · rintro ⟨hx | hx, hs⟩
          · exact absurd (hx.symm ▸ h) hs
          · exact ⟨hx, hs⟩
      · simp only [List.mem_cons, ih]
        constructor
        · rintro (hx | ⟨hx, hs⟩)
          · exact ⟨Or.inl hx, hx ▸ h⟩
          · exact ⟨Or.inr hx, fun hs' => hs (Or.inr hs')⟩
        · rintro ⟨hx | hx, hs⟩
          · exact Or.inl hx
          · by_cases hxa : x = a
            · exact Or.inl hxa
            · refine Or.inr ⟨hx, fun hmem => ?_⟩
              rcases hmem with h1 | h2
              · exact hxa h1
              · exact hs h2

theorem mem_dedupFirst (l : List String) (x : String) :
    x ∈ dedupFirst l ↔ x ∈ l := by
  simp [dedupFirst, mem_dedupAux]

theorem foldl_resolve_append (files : List String) (relDir : String)
    (l : List String) :
    ∀ acc,
      l.foldl (fun acc imp =>
          match resolveOne files relDir imp with
          | some p => acc ++ [p]
          | none => acc) acc =
        acc ++ l.filterMap (resolveOne files relDir) := by
  induction l with
  | nil => intro acc; simp
  | cons imp rest ih =>
      intro acc
      cases h : resolveOne files relDir imp <;>
        simp [List.filterMap_cons, h, ih, List.append_assoc]

theorem parse_eq_filterMap (files : List String) (relPath : String)
    (rawNames : List String) :
    parse_python_imports files relPath rawNames =
      (dedupFirst rawNames).filterMap (resolveOne files (dirName relPath)) := by
  rw [parse_python_imports]
  rw [foldl_resolve_append files (dirName relPath) (dedupFirst rawNames) []]
  simp

theorem resolveOne_eq_some (files : List String) (relDir imp p : String) :
    resolveOne files relDir imp = some p ↔
      (p = joinPath relDir (imp ++ ".py") ∧ p ∈ files) ∨
      (joinPath relDir (imp ++ ".py") ∉ files ∧ p = imp ++ ".py" ∧ p ∈ files) := by
  simp only [resolveOne]
  split_ifs with h1 h2
  · simp only [Option.some.injEq]
    constructor
    · intro he
      exact Or.inl ⟨he.symm, he ▸ h1⟩
    · rintro (⟨he, _⟩ | ⟨hn, _, _⟩)
      · exact he.symm
      · exact absurd h1 hn
  · simp only [Option.some.injEq]
    constructor
    · intro he
      exact Or.inr ⟨h1, he.symm, he ▸ h2⟩
    · rintro (⟨he, hm⟩ | ⟨_, he, _⟩)
      · exact absurd (he ▸ hm) h1
      · exact he.symm
  · constructor
    · intro he
      exact he.elim
    · rintro (⟨he, hm⟩ | ⟨_, he, hm⟩)
      · exact absurd (he ▸ hm) h1
      · exact absurd (he ▸ hm) h2

theorem mem_parse (files : List String) (relPath : String) (rawNames : List String)
    (p : String) :
    p ∈ parse_python_imports files relPath rawNames ↔
      ∃ imp, imp ∈ rawNames ∧
        ((p = joinPath (dirName relPath) (imp ++ ".py") ∧ p ∈ files) ∨
         (joinPath (dirName relPath) (imp ++ ".py") ∉ files ∧
           p = imp ++ ".py" ∧ p ∈ files)) := by
  rw [parse_eq_filterMap, List.mem_filterMap]
  constructor
  · rintro ⟨imp, hmem, hres⟩
    exact ⟨imp, (mem_dedupFirst _ _).mp hmem,
      (resolveOne_eq_some files (dirName relPath) imp p).mp hres⟩
  · rintro ⟨imp, hmem, hres⟩
    exact ⟨imp, (mem_dedupFirst _ _).mpr hmem,
      (resolveOne_eq_some files (dirName relPath) imp p).mpr hres⟩

theorem parse_subset (files : List String) (relPath : String)
    (rawNames : List String) (p : String)
    (hp : p ∈ parse_python_imports files relPath rawNames) : p ∈ files := by
  rcases (mem_parse files relPath rawNames p).mp hp with ⟨imp, _, h | h⟩
  · exact h.2
  · exact h.2.2

theorem countEq_pos (l : List String) (k : String) (h : k ∈ l) :
    0 < countEq l k := by
  have hk : k ∈ l.filter (fun x => decide (x = k)) :=
    List.mem_filter.mpr ⟨h, by simp⟩
  exact List.length_pos.mpr (List.ne_nil_of_mem hk)

theorem analyze_repo_fst (pyFiles : List String) (rawOf : String → List String) :
    (analyze_repo pyFiles rawOf).1 = pyFiles.map (fun f =>
      (f, { imports := parse_python_imports pyFiles f (rawOf f)
            used_by := (dget (buildUsageLookup pyFiles
              (fun g => parse_python_imports pyFiles g (rawOf g))) f).getD []
            : FileRecord })) := rfl

theorem analyze_repo_snd (pyFiles : List String) (rawOf : String → List String) :
    (analyze_repo pyFiles rawOf).2 =
      buildUsageLookup pyFiles (fun g => parse_python_imports pyFiles g (rawOf g)) := rfl

/-- C3: for every snapshot produced by a successful repository analysis and
all files A, B in it, if B appears in the imports recorded for A in the file
structure then A appears in the usage-lookup entry of B; and the file
structure and the usage lookup have the same keys, so every file-structure
key has a (possibly empty) usage entry. -/
theorem snapshot_graph_inversion (pyFiles : List String)
    (rawOf : String → List String) :
    (∀ A B rec, dget (analyze_repo pyFiles rawOf).1 A = some rec →
        B ∈ rec.imports →
        ∃ l, dget (analyze_repo pyFiles rawOf).2 B = some l ∧ A ∈ l) ∧
    keys (analyze_repo pyFiles rawOf).1 = keys (analyze_repo pyFiles rawOf).2 := by
  constructor
  · intro A B rec hA hB
    rw [analyze_repo_fst, dget_map_pair] at hA
    by_cases hmem : A ∈ pyFiles
    · rw [if_pos hmem] at hA
      have hrec := Option.some.inj hA
      rw [← hrec] at hB
      have hBimp : B ∈ parse_python_imports pyFiles A (rawOf A) := hB
      have hBfiles : B ∈ pyFiles := parse_subset pyFiles A (rawOf A) B hBimp
      rw [analyze_repo_snd, dget_buildUsageLookup _ _ B hBfiles]
      refine ⟨_, rfl, ?_⟩
      have hc : 0 < countEq (parse_python_imports pyFiles A (rawOf A)) B :=
        countEq_pos _ _ hBimp
      apply List.mem_flatten.mpr
      refine ⟨List.replicate
        (countEq (parse_python_imports pyFiles A (rawOf A)) B) A, ?_, ?_⟩
      · exact List.mem_map.mpr ⟨A, hmem, rfl⟩
      · exact List.mem_replicate.mpr ⟨Nat.pos_iff_ne_zero.mp hc, rfl⟩
    · rw [if_neg hmem] at hA
      exact Option.noConfusion hA
  · rw [analyze_repo_fst, analyze_repo_snd, keys_map_pair, keys_buildUsageLookup]

/-- Concrete instance of the graph-inversion invariant on the synthetic
three-file repository: `a.py` imports `b.py`, so `a.py` is listed in the
usage entry of `b.py`. -/
theorem snapshot_graph_inversion_witness :
    ∃ l, dget (analyze_repo demoFiles demoRawOf).2 "b.py" = some l ∧ "a.py" ∈ l :=
  (snapshot_graph_inversion demoFiles demoRawOf).1 "a.py" "b.py"
    { imports := ["b.py"], used_by := [] } (by decide) (by decide)

/-- C4: import resolution tries the same-directory `<import>.py` file first
and then the repository-root `<import>.py` file; the first match is
recorded, and an import name matching neither is dropped.  On the synthetic
three-file repository where `a` imports `b`, `b` imports `c` and `c`
imports nothing, the usage lookup maps `a.py` to `[]`, `b.py` to `[a.py]`
and `c.py` to `[b.py]`, and the file structure records `[b.py]` as the
imports of `a.py`. -/
theorem import_resolution_two_step :
    (∀ (files : List String) (relPath : String) (rawNames : List String)
        (p : String),
        p ∈ parse_python_imports files relPath rawNames ↔
          ∃ imp, imp ∈ rawNames ∧
            ((p = joinPath (dirName relPath) (imp ++ ".py") ∧ p ∈ files) ∨
             (joinPath (dirName relPath) (imp ++ ".py") ∉ files ∧
               p = imp ++ ".py" ∧ p ∈ files))) ∧
    dget (analyze_repo demoFiles demoRawOf).2 "a.py" = some [] ∧
    dget (analyze_repo demoFiles demoRawOf).2 "b.py" = some ["a.py"] ∧
    dget (analyze_repo demoFiles demoRawOf).2 "c.py" = some ["b.py"] ∧
    (dget (analyze_repo demoFiles demoRawOf).1 "a.py").map FileRecord.imports =
      some ["b.py"] :=
  ⟨mem_parse, rfl, rfl, rfl, rfl⟩

/-- Concrete instance of the two-step resolution rule: in the synthetic
repository the raw import name `b` of `a.py` resolves to the root file
`b.py`, so `b.py` is among the parsed imports of `a.py`. -/
theorem import_resolution_two_step_witness :
    "b.py" ∈ parse_python_imports demoFiles "a.py" ["b"] :=
  (import_resolution_two_step.1 demoFiles "a.py" ["b"] "b.py").mpr
    ⟨"b", by decide, by decide⟩

/-- C1 evaluation: a failed load after a successful one.  The analysis
outcome is a raised clone error; the resulting state keeps the previous
file index, usage index and file contents, but its current repository URL
has already been overwritten with the URL of the repository that failed to
load — it does not retain its previous value, contrary to the claim. -/
theorem load_failure_overwrites_repo_url :
    (load_repo_data loadedState "https://github.com/new/repo"
        (Except.error "clone failed")).2 = Except.error "clone failed" ∧
    (load_repo_data loadedState "https://github.com/new/repo"
        (Except.error "clone failed")).1.current_repo_url =
      some "https://github.com/new/repo" ∧
    (load_repo_data loadedState "https://github.com/new/repo"
        (Except.error "clone failed")).1.current_repo_url ≠
      loadedState.current_repo_url ∧
    (load_repo_data loadedState "https://github.com/new/repo"
        (Except.error "clone failed")).1.file_structure =
      loadedState.file_structure ∧
    (load_repo_data loadedState "https://github.com/new/repo"
        (Except.error "clone failed")).1.usage_lookup =
      loadedState.usage_lookup ∧
    (load_repo_data loadedState "https://github.com/new/repo"
        (Except.error "clone failed")).1.code_data = loadedState.code_data :=
  ⟨rfl, rfl, by decide, rfl, rfl, rfl⟩

/-- C2 evaluation: the deterministic fallback classifier on the query
`show me the architecture` with a repository loaded.  Because the greeting
check tests Python substring membership and `hi` occurs inside the word
`architecture`, the fallback returns the greeting decision — intent type
`greeting`, `requires_tools = false`, no suggested tools — instead of the
claimed `architecture_overview` decision. -/
theorem fallback_architecture_query_misclassified :
    (fallback_intent_analysis "show me the architecture" true).intent_type =
      "greeting" ∧
    (fallback_intent_analysis "show me the architecture" true).requires_tools =
      false ∧
    "read_file_structure" ∉
      (fallback_intent_analysis "show me the architecture" true).suggested_tools ∧
    pyIn "hi" (strLower "show me the architecture") = true :=
  ⟨rfl, rfl, by decide, rfl⟩

/-- C5: when the intent decision carries `requires_tools = true` and no
repository is loaded, the turn returns the fixed guidance message and makes
no completion call at all — in particular no synthesis call. -/
theorem run_tool_gate_no_repo_guidance (requiresTools : Option Bool)
    (intentType : String) (suggestedTools : List String)
    (llm : LlmCall → String) (h : requiresTools = some true) :
    run_after_intent false requiresTools intentType suggestedTools llm =
      ([], guidance_message) ∧
    LlmCall.synthesis ∉
      (run_after_intent false requiresTools intentType suggestedTools llm).1 := by
  subst h
  exact ⟨rfl, by simp [run_after_intent]⟩

/-- Concrete instance of the tool gate: a tool-requiring issue-search intent
with no repository loaded yields the guidance message with no completion
calls. -/
theorem run_tool_gate_no_repo_guidance_witness :
    run_after_intent false (some true) "issue_search" ["search_related_issues"]
        (fun _ => "synthesized text") = ([], guidance_message) :=
  (run_tool_gate_no_repo_guidance (some true) "issue_search"
    ["search_related_issues"] (fun _ => "synthesized text") rfl).1

/-- C7: on a well-formed snapshot state, a path absent from the file index
makes `fetch_code` return the not-found error dict and `find_code_usage`
return its not-found error dict; and both calls always return normally
(never raise), for every state and path. -/
theorem snapshot_reads_not_found (s : AgentState) (p : String)
    (hwf : wellFormed s) :
    (p ∉ keys s.file_structure →
        fetch_code s p =
          Except.ok (ToolReply.errorDict ("File " ++ p ++ " not found")) ∧
        find_code_usage s p =
          Except.ok (ToolReply.errorDict
            ("File " ++ p ++ " not found in usage lookup"))) ∧
    returnsOk (fetch_code s p) = true ∧
    returnsOk (find_code_usage s p) = true := by
  obtain ⟨hcd, hul⟩ := hwf
  refine ⟨fun hp => ?_, ?_, ?_⟩
  · have h1 : dget s.code_data p = none :=
      (dget_eq_none _ _).mpr (by rw [hcd]; exact hp)
    have h2 : dget s.usage_lookup p = none :=
      (dget_eq_none _ _).mpr (by rw [hul]; exact hp)
    exact ⟨by simp [fetch_code, hasKey, h1], by simp [find_code_usage, hasKey, h2]⟩
  · cases h : dget s.code_data p <;> simp [fetch_code, hasKey, h, returnsOk]
  · cases h : dget s.usage_lookup p <;> simp [find_code_usage, hasKey, h, returnsOk]

/-- Concrete instance of the not-found behaviour: on the initial (empty)
snapshot, fetching a missing path yields the error dict value. -/
theorem snapshot_reads_not_found_witness :
    fetch_code initialState "missing.py" =
      Except.ok (ToolReply.errorDict "File missing.py not found") :=
  ((snapshot_reads_not_found initialState "missing.py" ⟨rfl, rfl⟩).1
    (by decide)).1

/-- C9: every file-structure summary — after any successful load, whose file
index comes from the `.py`-filtering scan, and in the initial state — counts
zero files of type `other` and counts every file as `python`. -/
theorem file_structure_counts_python_only (allFiles : List String)
    (rawOf : String → List String) (contentOf : String → String)
    (s0 : AgentState) (url : String) :
    ((read_file_structure (load_repo_data s0 url (Except.ok
        (mkAnalyzeResult (walk_repo_files allFiles) rawOf contentOf))).1).other = 0 ∧
      (read_file_structure (load_repo_data s0 url (Except.ok
        (mkAnalyzeResult (walk_repo_files allFiles) rawOf contentOf))).1).python =
      (read_file_structure (load_repo_data s0 url (Except.ok
        (mkAnalyzeResult (walk_repo_files allFiles) rawOf contentOf))).1).total_files) ∧
    ((read_file_structure initialState).other = 0 ∧
      (read_file_structure initialState).python =
        (read_file_structure initialState).total_files) := by
  have hfs : (load_repo_data s0 url (Except.ok
      (mkAnalyzeResult (walk_repo_files allFiles) rawOf contentOf))).1.file_structure =
      (analyze_repo (walk_repo_files allFiles) rawOf).1 := rfl
  have hkeys : keys (analyze_repo (walk_repo_files allFiles) rawOf).1 =
      walk_repo_files allFiles := by
    rw [analyze_repo_fst, keys_map_pair]
  have hall : ∀ f ∈ walk_repo_files allFiles, endsWithStr f ".py" = true :=
    fun f hf => (List.mem_filter.mp hf).2
  refine ⟨⟨?_, ?_⟩, rfl, rfl⟩
  · simp only [read_file_structure, hfs, hkeys]
    rw [List.length_eq_zero]
    apply List.filter_eq_nil_iff.mpr
    intro f hf
    simp [hall f hf]
  · simp only [read_file_structure, hfs, hkeys]
    rw [List.filter_eq_self.mpr hall]
    rw [analyze_repo_fst, List.length_map]

/-- Concrete instance of the file-type counts: loading a scan of a mixed
working copy (one Python file, one other file) counts one python file and
zero other files. -/
theorem file_structure_counts_python_only_witness :
    (read_file_structure (load_repo_data initialState "https://github.com/u/r"
        (Except.ok (mkAnalyzeResult (walk_repo_files ["a.py", "README.md"])
          demoRawOf (fun _ => "")))).1).other = 0 :=
  (file_structure_counts_python_only ["a.py", "README.md"] demoRawOf
    (fun _ => "") initialState "https://github.com/u/r").1.1

/-! Helper lemmas for the issue-search merge. -/

theorem foldl_mergeStep (items : List Issue) :
    ∀ acc seen, items.foldl mergeStep (acc, seen) =
      (acc ++ (dedupSeen items seen).1, (dedupSeen items seen).2) := by
  induction items with
  | nil => intro acc seen; simp [dedupSeen]
  | cons i t ih =>
      intro acc seen
      by_cases h : i.number ∈ seen
      · simp only [List.foldl_cons, mergeStep, if_pos h, dedupSeen]
        exact ih acc seen
      · simp only [List.foldl_cons, mergeStep, if_neg h, dedupSeen]
        rw [ih (acc ++ [i]) (seen ++ [i.number])]
        simp [List.append_assoc]

theorem dedupSeen_append (l1 l2 : List Issue) :
    ∀ seen, dedupSeen (l1 ++ l2) seen =
      ((dedupSeen l1 seen).1 ++ (dedupSeen l2 (dedupSeen l1 seen).2).1,
        (dedupSeen l2 (dedupSeen l1 seen).2).2) := by
  induction l1 with
  | nil => intro seen; simp [dedupSeen]
  | cons i t ih =>
      intro seen
      by_cases h : i.number ∈ seen
      · simp only [List.cons_append, dedupSeen, if_pos h]
        exact ih seen
      · simp only [List.cons_append, dedupSeen, if_neg h, List.append_eq]
        rw [ih (seen ++ [i.number])]

theorem search_issues_merge_eq (queryResults : List (List Issue)) :
    search_issues_merge queryResults = (dedupSeen queryResults.flatten []).1 := by
  suffices h : ∀ acc seen,
      queryResults.foldl (fun acc items => items.foldl mergeStep acc) (acc, seen) =
        (acc ++ (dedupSeen queryResults.flatten seen).1,
          (dedupSeen queryResults.flatten seen).2) by
    rw [search_issues_merge, h [] []]
    simp
  induction queryResults with
  | nil => intro acc seen; simp [dedupSeen]
  | cons items rest ih =>
      intro acc seen
      simp only [List.foldl_cons, List.flatten_cons]
      rw [foldl_mergeStep items acc seen,
        ih (acc ++ (dedupSeen items seen).1) (dedupSeen items seen).2,
        dedupSeen_append items rest.flatten seen]
      simp [List.append_assoc]

theorem dedupSeen_nodup (items : List Issue) :
    ∀ seen, ((dedupSeen items seen).1.map Issue.number).Nodup ∧
      ∀ n ∈ (dedupSeen items seen).1.map Issue.number, n ∉ seen := by
  induction items with
  | nil => intro seen; simp [dedupSeen]
  | cons i t ih =>
      intro seen
      by_cases h : i.number ∈ seen
      · simp only [dedupSeen, if_pos h]
        exact ih seen
      · simp only [dedupSeen, if_neg h, List.map_cons, List.nodup_cons]
        obtain ⟨hnd, hnot⟩ := ih (seen ++ [i.number])
        refine ⟨⟨fun hmem => hnot i.number hmem (by simp), hnd⟩, ?_⟩
        intro n hn
        rcases List.mem_cons.mp hn with h1 | h2
        · exact h1 ▸ h
        · exact fun hs => hnot n h2 (List.mem_append_left _ hs)

theorem dedupSeen_covers (items : List Issue) :
    ∀ seen (i : Issue), i ∈ items → i.number ∉ seen →
      ∃ j ∈ (dedupSeen items seen).1, j.number = i.number := by
  induction items with
  | nil => intro seen i hi _; exact absurd hi (List.not_mem_nil i)
  | cons a t ih =>
      intro seen i hi hns
      by_cases h : a.number ∈ seen
      · simp only [dedupSeen, if_pos h]
        rcases List.mem_cons.mp hi with h1 | h2
        · exact absurd (h1 ▸ h) hns
        · exact ih seen i h2 hns
      · simp only [dedupSeen, if_neg h]
        rcases List.mem_cons.mp hi with h1 | h2
        · exact ⟨a, List.mem_cons_self a _, (congrArg Issue.number h1).symm⟩
        · by_cases hn : i.number = a.number
          · exact ⟨a, List.mem_cons_self a _, hn.symm⟩
          · obtain ⟨j, hj, hjn⟩ := ih (seen ++ [a.number]) i h2 (by
              intro hmem
              rcases List.mem_append.mp hmem with hm | hm
              · exact hns hm
              · exact hn (List.mem_singleton.mp hm))
            exact ⟨j, List.mem_cons_of_mem a hj, hjn⟩

theorem dedupSeen_subset (items : List Issue) :
    ∀ seen j, j ∈ (dedupSeen items seen).1 → j ∈ items := by
  induction items with
  | nil => intro seen j hj; simp [dedupSeen] at hj
  | cons a t ih =>
      intro seen j hj
      by_cases h : a.number ∈ seen
      · simp only [dedupSeen, if_pos h] at hj
        exact List.mem_cons_of_mem a (ih seen j hj)
      · simp only [dedupSeen, if_neg h] at hj
        rcases List.mem_cons.mp hj with h1 | h2
        · exact h1 ▸ List.mem_cons_self a t
        · exact List.mem_cons_of_mem a (ih _ j h2)

/-- C6: the merged result of `search_issues` has pairwise distinct issue
numbers; every issue returned by some underlying query is represented by
exactly one entry with its number; every merged entry came from an
underlying query; the merge equals first-seen deduplication of the
concatenated query results (first-seen order); and two queries both
returning issue 42 yield exactly the one entry for 42 that was seen
first. -/
theorem search_issues_dedup (queryResults : List (List Issue)) :
    ((search_issues_merge queryResults).map Issue.number).Nodup ∧
    (∀ i ∈ queryResults.flatten,
      ∃ j ∈ search_issues_merge queryResults, j.number = i.number) ∧
    (∀ j ∈ search_issues_merge queryResults, j ∈ queryResults.flatten) ∧
    search_issues_merge queryResults = (dedupSeen queryResults.flatten []).1 ∧
    search_issues_merge [[⟨42, "first"⟩], [⟨42, "second"⟩]] = [⟨42, "first"⟩] := by
  have he := search_issues_merge_eq queryResults
  refine ⟨?_, ?_, ?_, he, by decide⟩
  · rw [he]
    exact (dedupSeen_nodup queryResults.flatten []).1
  · intro i hi
    rw [he]
    exact dedupSeen_covers queryResults.flatten [] i hi (List.not_mem_nil _)
  · intro j hj
    rw [he] at hj
    exact dedupSeen_subset queryResults.flatten [] j hj

/-- Concrete instance of the issue-search deduplication: merging two scoped
queries that both return issue 42 keeps a single entry. -/
theorem search_issues_dedup_witness :
    ((search_issues_merge [[⟨42, "first"⟩], [⟨42, "second"⟩]]).map
      Issue.number).Nodup :=
  (search_issues_dedup [[⟨42, "first"⟩], [⟨42, "second"⟩]]).1

/-- C8: on every exit path of the repository analysis — raised clone error,
raised scan error, or successful return — the event trace of the run ends
with the deletion of the ephemeral working directory. -/
theorem analyze_repo_cleanup (tempDir : String)
    (cloneResult : Except String (List String)) (scanResult : Except String Unit)
    (rawOf : String → List String) (contentOf : String → String) :
    (analyze_repo_run tempDir cloneResult scanResult rawOf contentOf).2.getLast? =
      some (FsEvent.rmtree tempDir) ∧
    FsEvent.rmtree tempDir ∈
      (analyze_repo_run tempDir cloneResult scanResult rawOf contentOf).2 ∧
    (∀ e, cloneResult = Except.error e →
      (analyze_repo_run tempDir cloneResult scanResult rawOf contentOf).1 =
        Except.error e) ∧
    (∀ allFiles e, cloneResult = Except.ok allFiles →
      scanResult = Except.error e →
      (analyze_repo_run tempDir cloneResult scanResult rawOf contentOf).1 =
        Except.error e) ∧
    (∀ allFiles, cloneResult = Except.ok allFiles → scanResult = Except.ok () →
      (analyze_repo_run tempDir cloneResult scanResult rawOf contentOf).1 =
        Except.ok (mkAnalyzeResult (walk_repo_files allFiles) rawOf contentOf)) := by
  refine ⟨rfl, by simp [analyze_repo_run], ?_, ?_, ?_⟩
  · intro e he; subst he; rfl
  · intro allFiles e h1 h2; subst h1; subst h2; rfl
  · intro allFiles h1 h2; subst h1; subst h2; rfl

/-- Concrete instance of the cleanup discipline: a failed clone still ends
the trace with the deletion of the working directory. -/
theorem analyze_repo_cleanup_witness :
    FsEvent.rmtree "/tmp/work" ∈
      (analyze_repo_run "/tmp/work" (Except.error "clone failed")
        (Except.ok ()) (fun _ => []) (fun _ => "")).2 :=
  (analyze_repo_cleanup "/tmp/work" (Except.error "clone failed") (Except.ok ())
    (fun _ => []) (fun _ => "")).2.1

/-! Helper lemma for the chat endpoint. -/

theorem dget_sessionsAfterUserAppend (sessions : Sessions) (sid : String)
    (m : Msg) :
    dget (sessionsAfterUserAppend sessions sid m) sid =
      some ((dget sessions sid).getD [] ++ [m]) := by
  cases h0 : dget sessions sid with
  | none =>
      have h1 : hasKey sessions sid = false := by simp [hasKey, h0]
      have h2 : dget (sessions ++ [(sid, ([] : List Msg))]) sid = some [] := by
        rw [dget_append, h0]
        simp [dget]
      simp only [sessionsAfterUserAppend, h1, Bool.false_eq_true, if_false, h2,
        dget_setKey_self]
      rfl
  | some old =>
      have h1 : hasKey sessions sid = true := by simp [hasKey, h0]
      simp only [sessionsAfterUserAppend, h1, if_true, h0, dget_setKey_self]
      rfl

/-- C10: when the agent raises during a chat turn, the turn surfaces the
error and the session keeps the user message appended with no paired
assistant message — the stored history is exactly the previous history plus
the one user message, one message longer than before. -/
theorem chat_failure_keeps_user_message (sessions : Sessions) (sid : String)
    (m : Msg) (agentOf : List Msg → Except String String) (e : String)
    (h : agentOf ((dget sessions sid).getD [] ++ [m]) = Except.error e) :
    (chat_endpoint sessions sid m agentOf).2 = Except.error e ∧
    dget (chat_endpoint sessions sid m agentOf).1 sid =
      some ((dget sessions sid).getD [] ++ [m]) ∧
    ((dget (chat_endpoint sessions sid m agentOf).1 sid).getD []).length =
      ((dget sessions sid).getD []).length + 1 := by
  have hh := dget_sessionsAfterUserAppend sessions sid m
  have hrun : chat_endpoint sessions sid m agentOf =
      (sessionsAfterUserAppend sessions sid m, Except.error e) := by
    simp only [chat_endpoint, hh, Option.getD_some, h]
  rw [hrun]
  exact ⟨rfl, hh, by rw [hh]; simp⟩

/-- Concrete instance of the failed-turn behaviour: an unknown session, a
user message, and an agent that raises; the session ends up holding exactly
the one user message and the handler reports the error. -/
theorem chat_failure_keeps_user_message_witness :
    (chat_endpoint [] "s1" ⟨"user", "hello"⟩
        (fun _ => Except.error "boom")).2 = Except.error "boom" ∧
    dget (chat_endpoint [] "s1" ⟨"user", "hello"⟩
        (fun _ => Except.error "boom")).1 "s1" = some [⟨"user", "hello"⟩] := by
  have h := chat_failure_keeps_user_message [] "s1" ⟨"user", "hello"⟩
    (fun _ => Except.error "boom") "boom" rfl
  exact ⟨h.1, h.2.1⟩

end CodeXplain
